import Mathlib

/-!
Verification of the transaction-envelope / block-proposal core of the
`namada` repository (files `core/src/proto/types.rs` and
`apps/src/lib/node/ledger/shell/prepare_proposal.rs`), as a shallow
embedding in Lean 4.

Modelling conventions:
* Byte strings are `List Nat`; machine integers are `Nat` with explicit
  `% 2^w` where the source truncates.
* The build configuration modelled is the one the proposal builder uses:
  feature `ferveo-tpke` on, feature `mainnet` off, feature `abcipp` off.
* SHA-256 (external `sha2` crate) is modelled as an ideal collision-free
  digest, represented by the exact byte stream fed to the hasher
  (`idealDigest`). Consequently `Hash` values are variable-length byte
  lists, and where the concrete code serializes a hash as a fixed
  32-byte array we serialize it length-delimited instead.
* The external `tpke` threshold-encryption primitive, the prost-generated
  outer message type, and the repository types that are not part of the
  excerpt (`TxType`, `WrapperTx`, `DecryptedTx`, `TxInQueue`,
  `process_tx`, the shell mode) are modelled from the specification; each
  such definition is marked in its doc comment.
-/

namespace Namada

/-- Byte strings as lists of naturals. -/
abbrev Bytes := List Nat

/-- A hash digest. With the ideal-digest model of SHA-256 a digest is the
byte stream that was hashed (see `idealDigest`). -/
abbrev Hash := List Nat

/-- SHA-256 modelled as an ideal (collision-free) digest: the digest of a
byte stream is represented by the stream itself. The real function is the
external `sha2` crate, outside this repository. -/
def idealDigest (msg : List Nat) : Hash := msg

/-! ## Borsh-style byte-level encoders (canonical encoding layer) -/

/-- Little-endian 4-byte encoding of a `u32`. -/
def encU32 (n : Nat) : Bytes :=
  [n % 256, n / 256 % 256, n / 65536 % 256, n / 16777216 % 256]

/-- Little-endian 8-byte encoding of a `u64`. -/
def encU64 (n : Nat) : Bytes :=
  encU32 (n % 4294967296) ++ encU32 (n / 4294967296)

/-- Borsh encoding of a byte vector: `u32` length prefix then the bytes. -/
def encVec (v : Bytes) : Bytes := encU32 v.length ++ v

/-- Borsh encoding of a boolean: one byte, `0` or `1`. -/
def encBool (b : Bool) : Bytes := [if b then 1 else 0]

/-- Borsh encoding of an `Option`: tag byte `0` for `None`, `1` then the
payload for `Some`. -/
def encOpt {α : Type} (f : α → Bytes) : Option α → Bytes
  | none => [0]
  | some a => 1 :: f a

/-- LEB128 encoding worker, structurally recursive on a fuel bound (any
fuel at least the value encoded gives the LEB128 encoding; the fallback
for exhausted fuel is unreachable then). -/
def varintEncAux : Nat → Nat → Bytes
  | 0, n => [n % 128]
  | fuel + 1, n =>
      if n < 128 then [n] else (128 + n % 128) :: varintEncAux fuel (n / 128)

/-- LEB128 variable-length encoding of a natural, as used by the protobuf
outer framing. -/
def varintEnc (n : Nat) : Bytes := varintEncAux n n

/-! ## Prefix-consuming parsers -/

/-- Read one byte. -/
def pByte : Bytes → Option (Nat × Bytes)
  | [] => none
  | b :: r => some (b, r)

/-- Read exactly `n` bytes. -/
def pTake : Nat → Bytes → Option (Bytes × Bytes)
  | 0, s => some ([], s)
  | _ + 1, [] => none
  | n + 1, b :: s => (pTake n s).bind fun p => some (b :: p.fst, p.snd)

/-- Read a little-endian `u32`. -/
def pU32 : Bytes → Option (Nat × Bytes)
  | b0 :: b1 :: b2 :: b3 :: r =>
      some (b0 + 256 * b1 + 65536 * b2 + 16777216 * b3, r)
  | _ => none

/-- Read a little-endian `u64` as two `u32` halves. -/
def pU64 (s : Bytes) : Option (Nat × Bytes) :=
  (pU32 s).bind fun lo =>
  (pU32 lo.snd).bind fun hi =>
  some (lo.fst + 4294967296 * hi.fst, hi.snd)

/-- Read a length-prefixed byte vector. -/
def pVec (s : Bytes) : Option (Bytes × Bytes) :=
  (pU32 s).bind fun n => pTake n.fst n.snd

/-- Read a Borsh boolean. -/
def pBool (s : Bytes) : Option (Bool × Bytes) :=
  (pByte s).bind fun b =>
  if b.fst = 0 then some (false, b.snd)
  else if b.fst = 1 then some (true, b.snd)
  else none

/-- Read a Borsh `Option`. -/
def pOpt {α : Type} (p : Bytes → Option (α × Bytes)) (s : Bytes) :
    Option (Option α × Bytes) :=
  (pByte s).bind fun b =>
  if b.fst = 0 then some (none, b.snd)
  else if b.fst = 1 then (p b.snd).bind fun a => some (some a.fst, a.snd)
  else none

/-- Read exactly `n` values with parser `p`. -/
def pListN {α : Type} (p : Bytes → Option (α × Bytes)) :
    Nat → Bytes → Option (List α × Bytes)
  | 0, s => some ([], s)
  | n + 1, s =>
      (p s).bind fun a =>
      (pListN p n a.snd).bind fun as =>
      some (a.fst :: as.fst, as.snd)

/-- Read a LEB128 varint. -/
def pVarint : Bytes → Option (Nat × Bytes)
  | [] => none
  | b :: r =>
      if b < 128 then some (b, r)
      else (pVarint r).bind fun m => some ((b - 128) + 128 * m.fst, m.snd)

/-! ## Data model: the five section kinds (`core/src/proto/types.rs`) -/

/-- The `Data` payload struct: an 8-byte salt and arbitrary data bytes. -/
structure DataSec where
  salt : Bytes
  data : Bytes
deriving DecidableEq

/-- The `Code` payload struct: an 8-byte salt and a code blob. -/
structure CodeSec where
  salt : Bytes
  code : Bytes
deriving DecidableEq

/-- The `Signature` section struct: salt, the hash it attests to, the
signature bytes and the public key bytes. The concrete signature and key
types live outside the excerpt and are modelled as opaque byte strings
per the specification (`Signature{salt, target, signature, public_key}`). -/
structure SignatureSec where
  salt : Bytes
  target : Hash
  signature : Bytes
  pub_key : Bytes
deriving DecidableEq

/-- Modelled from the spec: the external `tpke::Ciphertext`, as the source
serializes it — a nonce buffer, the ciphertext bytes, and an
authentication tag buffer. In the ideal-encryption model the tag records
the public key the plaintext was encrypted to, and the ciphertext buffer
carries the (opaque) encrypted serialization. -/
structure TpkeCiphertext where
  nonce : Bytes
  ciphertext : Bytes
  auth_tag : Bytes
deriving DecidableEq

/-- The `Ciphertext` section under feature `ferveo-tpke`: a remembered
plaintext length and the tpke ciphertext. -/
structure Ciphertext where
  length : Nat
  ciphertext : TpkeCiphertext
deriving DecidableEq

/-- The `Section` sum type, in source declaration order (which also fixes
the Borsh enum tags 0..4). -/
inductive Section
  | data : DataSec → Section
  | extraData : DataSec → Section
  | code : CodeSec → Section
  | signature : SignatureSec → Section
  | ciphertext : Ciphertext → Section
deriving DecidableEq

/-! ## Data model: transaction headers (modelled from the spec — the
`TxType` family lives in `core/src/types/transaction`, outside the
excerpt) -/

/-- Modelled from the spec: the `Raw` header variant `{code_hash, data_hash}`. -/
structure RawHeader where
  code_hash : Hash
  data_hash : Hash
deriving DecidableEq

/-- Modelled from the spec: a wrapper's fee (amount and token). -/
structure Fee where
  amount : Nat
  token : Bytes
deriving DecidableEq

/-- Modelled from the spec: the `Wrapper` header variant
`{fee, public_key, epoch, gas_limit, code_hash, data_hash, optional proof-of-work}`. -/
structure WrapperTx where
  fee : Fee
  pk : Bytes
  epoch : Nat
  gas_limit : Nat
  code_hash : Hash
  data_hash : Hash
  pow_solution : Option Nat
deriving DecidableEq

/-- Modelled from the spec: the `Protocol` header variant
`{code_hash, data_hash, ...}`. -/
structure ProtocolHeader where
  code_hash : Hash
  data_hash : Hash
deriving DecidableEq

/-- Modelled from the spec: the `DecryptedTx` header —
`Decrypted{header_hash, code_hash, data_hash, has_valid_pow}` or
`Undecryptable(original wrapper)`. -/
inductive DecryptedTx
  | decrypted (header_hash : Hash) (code_hash : Hash) (data_hash : Hash)
      (has_valid_pow : Bool) : DecryptedTx
  | undecryptable (w : WrapperTx) : DecryptedTx
deriving DecidableEq

/-- Modelled from the spec: the `TxType` tagged union. -/
inductive TxType
  | raw : RawHeader → TxType
  | wrapper : WrapperTx → TxType
  | decrypted : DecryptedTx → TxType
  | protocol : ProtocolHeader → TxType
deriving DecidableEq

/-- The `SignedTxData` struct: optional data bytes and an optional
signature (the concrete signature type is modelled as opaque bytes). -/
structure SignedTxData where
  data : Option Bytes
  sig : Option Bytes
deriving DecidableEq

/-- The transaction envelope `Tx` with its nine fields in source
declaration order. Timestamps (`DateTimeUtc`, defined outside the
excerpt) are modelled as naturals. -/
structure Tx where
  outer_code : Bytes
  outer_data : TxType
  outer_timestamp : Nat
  outer_extra : Bytes
  code : Bytes
  data : Option SignedTxData
  timestamp : Nat
  extra : Bytes
  sections : List Section
deriving DecidableEq

/-- Modelled from the spec: a pending-decryption queue entry `TxInQueue`
(`core/src/types/internal`, outside the excerpt):
`{wrapper_header, inner_envelope, proof_of_work_valid}`. -/
structure TxInQueue where
  tx : WrapperTx
  inner_tx : Tx
  has_valid_pow : Bool
deriving DecidableEq

/-- Modelled from the spec: whether the node acts as a validator
(the `ShellMode` enum lives outside the excerpt). -/
inductive ShellMode
  | validator
  | nonValidator
deriving DecidableEq

/-- The shell state visible to the proposal builder: the mode flag and
the pending-decryption queue. -/
structure ShellState where
  mode : ShellMode
  tx_queue : List TxInQueue
deriving DecidableEq

/-- Ambient process randomness (the `thread_rng` stream available to
`Ciphertext::new`); proposal construction receives it but, as proved in
the determinism claim, never consumes it. -/
structure Env where
  rng : Bytes
deriving DecidableEq

/-- The decryption error type (`WrapperTxErr`, defined outside the
excerpt); only the two variants the excerpt constructs are modelled. -/
inductive WrapperTxErr
  | invalidTx
  | decryptedHash
deriving DecidableEq

/-! ## Canonical (Borsh-style) encoding of the data model -/

/-- Canonical encoding of a hash field. Ideal digests are variable
length, so they are serialized length-delimited (the concrete code uses
fixed 32-byte arrays serialized raw). -/
def encHash (h : Hash) : Bytes := encVec h

/-- Canonical encoding of `SignedTxData`. -/
def encSignedTxData (d : SignedTxData) : Bytes :=
  encOpt encVec d.data ++ encOpt encVec d.sig

/-- Canonical encoding of a `Fee`. -/
def encFee (f : Fee) : Bytes := encU64 f.amount ++ encVec f.token

/-- Canonical encoding of a `WrapperTx`, fields in spec order. -/
def encWrapperTx (w : WrapperTx) : Bytes :=
  encFee w.fee ++ encVec w.pk ++ encU64 w.epoch ++ encU64 w.gas_limit ++
  encHash w.code_hash ++ encHash w.data_hash ++ encOpt encU64 w.pow_solution

/-- Canonical encoding of a `TxType` header: variant tag byte then the
variant's fields. -/
def encTxType : TxType → Bytes
  | TxType.raw r => 0 :: (encHash r.code_hash ++ encHash r.data_hash)
  | TxType.wrapper w => 1 :: encWrapperTx w
  | TxType.decrypted (DecryptedTx.decrypted hh ch dh pow) =>
      2 :: 0 :: (encHash hh ++ encHash ch ++ encHash dh ++ encBool pow)
  | TxType.decrypted (DecryptedTx.undecryptable w) => 2 :: 1 :: encWrapperTx w
  | TxType.protocol p => 3 :: (encHash p.code_hash ++ encHash p.data_hash)

/-- The custom Borsh serialization of a `Ciphertext`
(`impl BorshSerialize for Ciphertext`, `types.rs` lines 278-303): a
recomputed `u32` total buffer length, then the three length-delimited
buffers. Note the stored `length` field is ignored by serialization. -/
def ciphertextSerial (c : Ciphertext) : Bytes :=
  encU32 (c.ciphertext.nonce.length + c.ciphertext.ciphertext.length +
    c.ciphertext.auth_tag.length) ++
  encVec c.ciphertext.nonce ++ encVec c.ciphertext.ciphertext ++
  encVec c.ciphertext.auth_tag

/-- Canonical encoding of a `Section`: Borsh enum tag (declaration order,
hence Data=0, ExtraData=1, Code=2, Signature=3, Ciphertext=4) then the
payload fields in order. Salts are 8-byte arrays, serialized raw. -/
def encSection : Section → Bytes
  | Section.data d => 0 :: (d.salt ++ encVec d.data)
  | Section.extraData d => 1 :: (d.salt ++ encVec d.data)
  | Section.code c => 2 :: (c.salt ++ encVec c.code)
  | Section.signature g =>
      3 :: (g.salt ++ encHash g.target ++ encVec g.signature ++ encVec g.pub_key)
  | Section.ciphertext c => 4 :: ciphertextSerial c

/-- Canonical encoding of the section list: `u32` count then each section. -/
def encSections (l : List Section) : Bytes :=
  encU32 l.length ++ (l.map encSection).flatten

/-- The inner Borsh encoding of a full envelope: the nine fields of `Tx`
in declaration order. -/
def borshTx (tx : Tx) : Bytes :=
  encVec tx.outer_code ++ encTxType tx.outer_data ++
  encU64 tx.outer_timestamp ++ encVec tx.outer_extra ++ encVec tx.code ++
  encOpt encSignedTxData tx.data ++ encU64 tx.timestamp ++
  encVec tx.extra ++ encSections tx.sections

/-- Modelled from the spec: the prost encoding of the generated outer
message `types::Tx { data: Vec<u8> }` (one opaque byte field; the
generated code is outside the excerpt). Field 1 with wire type 2 gives
key byte `0x0A`, then a varint length, then the bytes; an empty field is
skipped, as proto3 skips default values. -/
def prostWrap (d : Bytes) : Bytes :=
  if d.isEmpty then [] else 10 :: (varintEnc d.length ++ d)

/-- Modelled from the spec: prost decoding of the outer one-field
message, for the byte strings this codec produces. -/
def prostUnwrap : Bytes → Option Bytes
  | [] => some []
  | 10 :: r =>
      (pVarint r).bind fun p =>
      if p.snd.length = p.fst then some p.snd else none
  | _ => none

/-! ## Section identity: the domain-separated hash (`Section::hash`) -/

/-- The byte stream `Data::hash` feeds to the hasher: salt then the raw
payload bytes. -/
def dataStream (d : DataSec) : Bytes := d.salt ++ d.data

/-- The byte stream `Code::hash` feeds to the hasher. -/
def codeStream (c : CodeSec) : Bytes := c.salt ++ c.code

/-- The byte stream `Signature::hash` feeds to the hasher: salt, target,
then the canonical encodings of the signature and the public key. -/
def signatureStream (g : SignatureSec) : Bytes :=
  g.salt ++ encHash g.target ++ encVec g.signature ++ encVec g.pub_key

/-- The byte stream `Ciphertext::hash` feeds to the hasher under
`ferveo-tpke`: the section's serialization with its first four bytes (the
`u32` length framing) dropped (`self.try_to_vec().get(4..)`). -/
def ciphertextStream (c : Ciphertext) : Bytes := (ciphertextSerial c).drop 4

/-- The byte stream `Section::hash` feeds to the hasher: the
domain-separation tag byte, then the variant's stream. -/
def sectionStream : Section → Bytes
  | Section.data d => 0 :: dataStream d
  | Section.extraData d => 1 :: dataStream d
  | Section.code c => 2 :: codeStream c
  | Section.signature g => 3 :: signatureStream g
  | Section.ciphertext c => 4 :: ciphertextStream c

/-- A section's identity: the digest of its hash stream. -/
def sectionHash (s : Section) : Hash := idealDigest (sectionStream s)

/-! ## Ideal threshold encryption (modelled from the spec) -/

/-- Modelled from the spec: `tpke::encrypt` with fresh randomness. The
nonce records the randomness drawn, the ciphertext buffer carries the
plaintext bytes opaquely, and the authentication tag binds the
encryption key. -/
def tpkeEncrypt (bytes : Bytes) (pubkey : Nat) (rng : Bytes) : TpkeCiphertext :=
  { nonce := rng, ciphertext := bytes, auth_tag := [pubkey] }

/-- Modelled from the spec: authenticated `tpke` decryption — returns the
plaintext when the private key matches the encryption key, and bytes
that deserialize to nothing otherwise. -/
def tpkeDecrypt (ct : TpkeCiphertext) (privkey : Nat) : Bytes :=
  if ct.auth_tag = [privkey] then ct.ciphertext else []

/-- `Ciphertext::new`: serialize the section, remember the byte length,
and encrypt the bytes under the recipient key. -/
def Ciphertext.new (env : Env) (pubkey : Nat) (s : Section) : Ciphertext :=
  let bytes := encSection s
  { length := bytes.length, ciphertext := tpkeEncrypt bytes pubkey env.rng }

/-! ## Structure parsers (Borsh deserialization of the model) -/

/-- Parse a hash field (length-delimited, see `encHash`). -/
def pHash (s : Bytes) : Option (Hash × Bytes) := pVec s

/-- Parse a `SignedTxData`. -/
def pSignedTxData (s : Bytes) : Option (SignedTxData × Bytes) :=
  (pOpt pVec s).bind fun d =>
  (pOpt pVec d.snd).bind fun g =>
  some ({ data := d.fst, sig := g.fst }, g.snd)

/-- Parse a `Fee`. -/
def pFee (s : Bytes) : Option (Fee × Bytes) :=
  (pU64 s).bind fun a =>
  (pVec a.snd).bind fun t =>
  some ({ amount := a.fst, token := t.fst }, t.snd)

/-- Parse a `WrapperTx`. -/
def pWrapperTx (s : Bytes) : Option (WrapperTx × Bytes) :=
  (pFee s).bind fun f =>
  (pVec f.snd).bind fun pk =>
  (pU64 pk.snd).bind fun ep =>
  (pU64 ep.snd).bind fun gl =>
  (pHash gl.snd).bind fun ch =>
  (pHash ch.snd).bind fun dh =>
  (pOpt pU64 dh.snd).bind fun pw =>
  some ({ fee := f.fst, pk := pk.fst, epoch := ep.fst, gas_limit := gl.fst,
          code_hash := ch.fst, data_hash := dh.fst, pow_solution := pw.fst },
        pw.snd)

/-- Parse a `TxType` header. -/
def pTxType (s : Bytes) : Option (TxType × Bytes) :=
  (pByte s).bind fun t =>
  if t.fst = 0 then
    (pHash t.snd).bind fun ch =>
    (pHash ch.snd).bind fun dh =>
    some (TxType.raw { code_hash := ch.fst, data_hash := dh.fst }, dh.snd)
  else if t.fst = 1 then
    (pWrapperTx t.snd).bind fun w => some (TxType.wrapper w.fst, w.snd)
  else if t.fst = 2 then
    (pByte t.snd).bind fun u =>
    if u.fst = 0 then
      (pHash u.snd).bind fun hh =>
      (pHash hh.snd).bind fun ch =>
      (pHash ch.snd).bind fun dh =>
      (pBool dh.snd).bind fun pw =>
      some (TxType.decrypted
        (DecryptedTx.decrypted hh.fst ch.fst dh.fst pw.fst), pw.snd)
    else if u.fst = 1 then
      (pWrapperTx u.snd).bind fun w =>
      some (TxType.decrypted (DecryptedTx.undecryptable w.fst), w.snd)
    else none
  else if t.fst = 3 then
    (pHash t.snd).bind fun ch =>
    (pHash ch.snd).bind fun dh =>
    some (TxType.protocol { code_hash := ch.fst, data_hash := dh.fst }, dh.snd)
  else none

/-- Parse a `Ciphertext` (`impl BorshDeserialize for Ciphertext`): read
the `u32` length and the three buffers; the stored length is whatever the
wire said. -/
def pCiphertext (s : Bytes) : Option (Ciphertext × Bytes) :=
  (pU32 s).bind fun n =>
  (pVec n.snd).bind fun nn =>
  (pVec nn.snd).bind fun ct =>
  (pVec ct.snd).bind fun tg =>
  some ({ length := n.fst,
          ciphertext := { nonce := nn.fst, ciphertext := ct.fst,
                          auth_tag := tg.fst } }, tg.snd)

/-- Parse one `Section`. -/
def pSection (s : Bytes) : Option (Section × Bytes) :=
  (pByte s).bind fun t =>
  if t.fst = 0 then
    (pTake 8 t.snd).bind fun sa =>
    (pVec sa.snd).bind fun d =>
    some (Section.data { salt := sa.fst, data := d.fst }, d.snd)
  else if t.fst = 1 then
    (pTake 8 t.snd).bind fun sa =>
    (pVec sa.snd).bind fun d =>
    some (Section.extraData { salt := sa.fst, data := d.fst }, d.snd)
  else if t.fst = 2 then
    (pTake 8 t.snd).bind fun sa =>
    (pVec sa.snd).bind fun d =>
    some (Section.code { salt := sa.fst, code := d.fst }, d.snd)
  else if t.fst = 3 then
    (pTake 8 t.snd).bind fun sa =>
    (pHash sa.snd).bind fun tg =>
    (pVec tg.snd).bind fun sg =>
    (pVec sg.snd).bind fun pk =>
    some (Section.signature
      { salt := sa.fst, target := tg.fst, signature := sg.fst,
        pub_key := pk.fst }, pk.snd)
  else if t.fst = 4 then
    (pCiphertext t.snd).bind fun c => some (Section.ciphertext c.fst, c.snd)
  else none

/-- Parse a full envelope: the nine fields in order, then the section
list. -/
def pTx (s : Bytes) : Option (Tx × Bytes) :=
  (pVec s).bind fun oc =>
  (pTxType oc.snd).bind fun od =>
  (pU64 od.snd).bind fun ots =>
  (pVec ots.snd).bind fun oe =>
  (pVec oe.snd).bind fun cd =>
  (pOpt pSignedTxData cd.snd).bind fun dt =>
  (pU64 dt.snd).bind fun ts =>
  (pVec ts.snd).bind fun ex =>
  (pU32 ex.snd).bind fun n =>
  (pListN pSection n.fst n.snd).bind fun secs =>
  some ({ outer_code := oc.fst, outer_data := od.fst,
          outer_timestamp := ots.fst, outer_extra := oe.fst, code := cd.fst,
          data := dt.fst, timestamp := ts.fst, extra := ex.fst,
          sections := secs.fst }, secs.snd)

/-- Borsh deserialization of one `Section` from a full slice
(`Section::try_from_slice`): parse and require that every byte was
consumed. -/
def sectionFromSlice (bytes : Bytes) : Option Section :=
  match pSection bytes with
  | some (s, []) => some s
  | _ => none

/-! ## Envelope operations (`impl Tx`) -/

/-- `Ciphertext::decrypt`: tpke-decrypt then deserialize the section
(`Section::try_from_slice`); fails if either step fails. -/
def Ciphertext.decrypt (c : Ciphertext) (privkey : Nat) : Option Section :=
  sectionFromSlice (tpkeDecrypt c.ciphertext privkey)

/-- `Tx::header`: the header is the `outer_data` field. -/
def Tx.header (tx : Tx) : TxType := tx.outer_data

/-- `Tx::header_hash`: the digest of the canonical encoding of the header
alone (`TxType::hash` is outside the excerpt; modelled from the spec as
hashing the header's canonical encoding). -/
def Tx.headerHash (tx : Tx) : Hash := idealDigest (encTxType tx.outer_data)

/-- The linear scan of `Tx::get_section`: recompute each section's hash
and return the first match. -/
def findSection (h : Hash) : List Section → Option Section
  | [] => none
  | s :: rest => if sectionHash s = h then some s else findSection h rest

/-- `Tx::get_section`. -/
def Tx.getSection (tx : Tx) (h : Hash) : Option Section :=
  findSection h tx.sections

/-- `Tx::add_section`: push a section onto the list. -/
def Tx.addSection (tx : Tx) (s : Section) : Tx :=
  { tx with sections := tx.sections ++ [s] }

/-- `Tx::code_hash`: the header's code hash, for whichever variant is
active. -/
def Tx.codeHash (tx : Tx) : Hash :=
  match tx.outer_data with
  | TxType.raw r => r.code_hash
  | TxType.wrapper w => w.code_hash
  | TxType.decrypted (DecryptedTx.decrypted _ ch _ _) => ch
  | TxType.decrypted (DecryptedTx.undecryptable w) => w.code_hash
  | TxType.protocol p => p.code_hash

/-- `Tx::set_code_hash`: write the code hash into whichever header
variant is active. -/
def Tx.setCodeHash (tx : Tx) (h : Hash) : Tx :=
  { tx with outer_data :=
    match tx.outer_data with
    | TxType.raw r => TxType.raw { r with code_hash := h }
    | TxType.wrapper w => TxType.wrapper { w with code_hash := h }
    | TxType.decrypted (DecryptedTx.decrypted hh _ dh pow) =>
        TxType.decrypted (DecryptedTx.decrypted hh h dh pow)
    | TxType.decrypted (DecryptedTx.undecryptable w) =>
        TxType.decrypted (DecryptedTx.undecryptable { w with code_hash := h })
    | TxType.protocol p => TxType.protocol { p with code_hash := h } }

/-- `Tx::code`: resolve the header's code hash via `get_section`; only a
`Code` section counts. (Named `codeBytes` because `code` is a field.) -/
def Tx.codeBytes (tx : Tx) : Option Bytes :=
  match tx.getSection tx.codeHash with
  | some (Section.code c) => some c.code
  | _ => none

/-- `Tx::set_code`: hash the new `Code` section, write the hash into the
header, then append the section. -/
def Tx.setCode (tx : Tx) (c : CodeSec) : Tx :=
  let sec := Section.code c
  let tx' := tx.setCodeHash (sectionHash sec)
  { tx' with sections := tx'.sections ++ [sec] }

/-- `Tx::data_hash`. -/
def Tx.dataHash (tx : Tx) : Hash :=
  match tx.outer_data with
  | TxType.raw r => r.data_hash
  | TxType.wrapper w => w.data_hash
  | TxType.decrypted (DecryptedTx.decrypted _ _ dh _) => dh
  | TxType.decrypted (DecryptedTx.undecryptable w) => w.data_hash
  | TxType.protocol p => p.data_hash

/-- `Tx::set_data_hash`. -/
def Tx.setDataHash (tx : Tx) (h : Hash) : Tx :=
  { tx with outer_data :=
    match tx.outer_data with
    | TxType.raw r => TxType.raw { r with data_hash := h }
    | TxType.wrapper w => TxType.wrapper { w with data_hash := h }
    | TxType.decrypted (DecryptedTx.decrypted hh ch _ pow) =>
        TxType.decrypted (DecryptedTx.decrypted hh ch h pow)
    | TxType.decrypted (DecryptedTx.undecryptable w) =>
        TxType.decrypted (DecryptedTx.undecryptable { w with data_hash := h })
    | TxType.protocol p => TxType.protocol { p with data_hash := h } }

/-- `Tx::set_data`: hash the new `Data` section, write the hash into the
header, then append the section. -/
def Tx.setData (tx : Tx) (d : DataSec) : Tx :=
  let sec := Section.data d
  let tx' := tx.setDataHash (sectionHash sec)
  { tx' with sections := tx'.sections ++ [sec] }

/-- `Tx::data`: resolve the header's data hash via `get_section`; only a
`Data` section counts. (Named `dataBytes` because `data` is a field.) -/
def Tx.dataBytes (tx : Tx) : Option Bytes :=
  match tx.getSection tx.dataHash with
  | some (Section.data d) => some d.data
  | _ => none

/-- `Tx::to_bytes`: Borsh-encode the envelope, wrap it as the single
opaque field of the generated outer message, and prost-encode that. -/
def Tx.toBytes (tx : Tx) : Bytes := prostWrap (borshTx tx)

/-- `impl TryFrom<&[u8]> for Tx`: prost-decode the outer message, then
Borsh-deserialize the envelope from its byte field, requiring full
consumption. -/
def Tx.tryFrom (bytes : Bytes) : Option Tx :=
  (prostUnwrap bytes).bind fun d =>
  match pTx d with
  | some (tx, []) => some tx
  | _ => none

/-- The in-place replacement loop of `Tx::decrypt`: walk the sections in
order, replacing each `Ciphertext` section by its decryption; stop at the
first failure, leaving the remaining sections (including the failing one)
untouched. Returns the error, if any, and the resulting section list —
sections already replaced before a failure stay replaced, as in the
source's `&mut` loop. -/
def decryptSections (privkey : Nat) : List Section →
    Option WrapperTxErr × List Section
  | [] => (none, [])
  | Section.ciphertext ct :: rest =>
      match Ciphertext.decrypt ct privkey with
      | some s2 =>
          let r := decryptSections privkey rest
          (r.fst, s2 :: r.snd)
      | none => (some WrapperTxErr.invalidTx, Section.ciphertext ct :: rest)
  | s :: rest =>
      let r := decryptSections privkey rest
      (r.fst, s :: r.snd)

/-- `Tx::decrypt`: replace every ciphertext section in place (stopping at
the first failure), then require that the header's data hash and code
hash resolve post-decryption. Returns the outcome together with the
envelope as the `&mut` receiver leaves it. -/
def Tx.decrypt (tx : Tx) (privkey : Nat) : Option WrapperTxErr × Tx :=
  let r := decryptSections privkey tx.sections
  let tx' := { tx with sections := r.snd }
  match r.fst with
  | some e => (some e, tx')
  | none =>
      match tx'.dataBytes with
      | none => (some WrapperTxErr.decryptedHash, tx')
      | some _ =>
          match tx'.codeBytes with
          | none => (some WrapperTxErr.decryptedHash, tx')
          | some _ => (none, tx')

/-- `Tx::encrypt`: replace every section by a fresh ciphertext, except a
`Signature` section whose target is the header hash. -/
def Tx.encrypt (tx : Tx) (env : Env) (pubkey : Nat) : Tx :=
  let hh := tx.headerHash
  { tx with sections := tx.sections.map fun s =>
      match s with
      | Section.signature g =>
          if g.target = hh then Section.signature g
          else Section.ciphertext (Ciphertext.new env pubkey s)
      | s' => Section.ciphertext (Ciphertext.new env pubkey s') }

/-! ## The proposal builder (`prepare_proposal.rs`) -/

/-- `MAX_PROPOSAL_SIZE = 5 << 20`. -/
def MAX_PROPOSAL_SIZE : Nat := 5242880

/-- `HALF_MAX_PROPOSAL_SIZE = MAX_PROPOSAL_SIZE / 2`. -/
def HALF_MAX_PROPOSAL_SIZE : Nat := MAX_PROPOSAL_SIZE / 2

/-- Modelled from the spec: the hardcoded placeholder decryption key
`<EllipticCurve as PairingEngine>::G2Affine::prime_subgroup_generator()`,
an external constant, represented as key `0`. -/
def primeSubgroupGenerator : Nat := 0

/-- Modelled from the spec: `process_tx` (defined in the shell module,
outside the excerpt). The specification describes the mempool filter as
decode-then-classify, so processing is modelled as the identity
classification step whose result's header is then inspected. -/
def process_tx (tx : Tx) : Option Tx := some tx

/-- The mempool filter's keep condition: the candidate decodes
(`Tx::try_from`) and processing classifies its header as `Wrapper`
(the `Ok(Ok(TxType::Wrapper(_)))` match). -/
def keepTx (b : Bytes) : Bool :=
  match (Tx.tryFrom b).map fun x => (process_tx x).map Tx.header with
  | some (some (TxType.wrapper _)) => true
  | _ => false

/-- The stateful `take_while` of the mempool filter phase: keep a running
total of kept candidates' byte lengths, and stop the scan the instant a
candidate would push the total strictly past the budget. -/
def takeWhileBudget (budget : Nat) : Nat → List Bytes → List Bytes
  | _, [] => []
  | total, t :: ts =>
      let newSize := total + t.length
      if budget < newSize then []
      else t :: takeWhileBudget budget newSize ts

/-- The mempool filter phase with an explicit budget: the source's
`filter_map` (keep only decodable wrappers) chained into the stateful
`take_while` above. -/
def mempoolPhaseWith (budget : Nat) (reqTxs : List Bytes) : List Bytes :=
  takeWhileBudget budget 0 (reqTxs.filter keepTx)

/-- The mempool filter phase as the source runs it, with the fixed
half-of-maximum budget. -/
def mempoolPhase (reqTxs : List Bytes) : List Bytes :=
  mempoolPhaseWith HALF_MAX_PROPOSAL_SIZE reqTxs

/-- The per-entry closure of the queue drain phase: clone the entry's
inner envelope, attempt decryption with the validator key; on success
synthesize a `Decrypted::Decrypted` header (header hash of the decrypted
clone, code/data hashes from the queued wrapper header, the stored
proof-of-work flag); on failure synthesize
`Decrypted::Undecryptable(wrapper)` on the envelope as decryption left
it. -/
def resolveQueueEntry (privkey : Nat) (e : TxInQueue) : Tx :=
  let r := Tx.decrypt e.inner_tx privkey
  let t := r.snd
  match r.fst with
  | none =>
      { t with outer_data := (TxType.decrypted
          (DecryptedTx.decrypted t.headerHash e.tx.code_hash
            e.tx.data_hash e.has_valid_pow)) }
  | some _ =>
      { t with outer_data := (TxType.decrypted
          (DecryptedTx.undecryptable e.tx)) }

/-- `Shell::prepare_proposal` (non-`abcipp` variant): in validator mode,
filter and size-bound the mempool candidates, then append one
resolved-or-unresolvable transaction per queue entry, serialized; in any
other mode return the empty proposal. The receiver is `&self`, so the
shell state is returned unchanged. The `Env` argument is the ambient
process randomness, which this path never consumes. -/
def prepareProposal (_env : Env) (st : ShellState) (reqTxs : List Bytes) :
    List Bytes × ShellState :=
  let txs :=
    match st.mode with
    | ShellMode.validator =>
        let privkey := primeSubgroupGenerator
        let kept := mempoolPhase reqTxs
        let decrypted_txs :=
          st.tx_queue.map fun e => (resolveQueueEntry privkey e).toBytes
        kept ++ decrypted_txs
    | ShellMode.nonValidator => []
  (txs, st)

/-! ## Spec-side definitions (stated from the specification's words, to
be compared with the source-derived definitions) -/

/-- The specification's description of the mempool filter phase, fused
into one scan: consider candidates in order; silently drop any that is
not kept; the instant a kept candidate would push the running total of
kept candidates' lengths past the budget, stop scanning entirely. -/
def specGreedySelect (budget : Nat) : Nat → List Bytes → List Bytes
  | _, [] => []
  | total, t :: ts =>
      if keepTx t then
        if budget < total + t.length then []
        else t :: specGreedySelect budget (total + t.length) ts
      else specGreedySelect budget total ts

/-- Spec-side: a section decrypts cleanly under a key (non-ciphertext
sections vacuously so). -/
def sectionDecOk (privkey : Nat) : Section → Bool
  | Section.ciphertext ct => (Ciphertext.decrypt ct privkey).isSome
  | _ => true

/-- Spec-side: the section list with every ciphertext section replaced by
its decryption (identity where decryption fails). -/
def decryptedSections (privkey : Nat) (l : List Section) : List Section :=
  l.map fun s =>
    match s with
    | Section.ciphertext ct => (Ciphertext.decrypt ct privkey).getD s
    | s' => s'

/-! ## Well-formedness (machine-width bounds and fixed-size fields) -/

/-- Well-formed byte vector: its length fits a `u32`. -/
def wfVecB (v : Bytes) : Bool := decide (v.length < 4294967296)

/-- Well-formed `u64` value. -/
def wfU64B (n : Nat) : Bool := decide (n < 18446744073709551616)

/-- Well-formed optional byte vector. -/
def wfOptVecB : Option Bytes → Bool
  | none => true
  | some v => wfVecB v

/-- Well-formed section: salts are 8 bytes (as the `[u8; 8]` fields are),
and every variable-length field fits its `u32` length prefix. For a
ciphertext the three buffers and their total fit a `u32`. -/
def wfSectionB : Section → Bool
  | Section.data d => decide (d.salt.length = 8) && wfVecB d.data
  | Section.extraData d => decide (d.salt.length = 8) && wfVecB d.data
  | Section.code c => decide (c.salt.length = 8) && wfVecB c.code
  | Section.signature g =>
      decide (g.salt.length = 8) && wfVecB g.target && wfVecB g.signature &&
      wfVecB g.pub_key
  | Section.ciphertext c =>
      wfVecB c.ciphertext.nonce && wfVecB c.ciphertext.ciphertext &&
      wfVecB c.ciphertext.auth_tag &&
      decide (c.ciphertext.nonce.length + c.ciphertext.ciphertext.length +
        c.ciphertext.auth_tag.length < 4294967296)

/-- Length-consistency of a ciphertext section: the stored `length` field
equals the total buffer length its serialization records. (Sections of
the other kinds are vacuously consistent.) -/
def ctConsistentB : Section → Bool
  | Section.ciphertext c =>
      decide (c.length = c.ciphertext.nonce.length +
        c.ciphertext.ciphertext.length + c.ciphertext.auth_tag.length)
  | _ => true

/-- Well-formed wrapper header: numbers fit `u64`, byte fields fit their
length prefixes. -/
def wfWrapperB (w : WrapperTx) : Bool :=
  wfU64B w.fee.amount && wfVecB w.fee.token && wfVecB w.pk &&
  wfU64B w.epoch && wfU64B w.gas_limit && wfVecB w.code_hash &&
  wfVecB w.data_hash &&
  (match w.pow_solution with | none => true | some n => wfU64B n)

/-- Well-formed header. -/
def wfTxTypeB : TxType → Bool
  | TxType.raw r => wfVecB r.code_hash && wfVecB r.data_hash
  | TxType.wrapper w => wfWrapperB w
  | TxType.decrypted (DecryptedTx.decrypted hh ch dh _) =>
      wfVecB hh && wfVecB ch && wfVecB dh
  | TxType.decrypted (DecryptedTx.undecryptable w) => wfWrapperB w
  | TxType.protocol p => wfVecB p.code_hash && wfVecB p.data_hash

/-- Well-formed envelope: every field within machine bounds, every
section well formed. -/
def wfTxB (tx : Tx) : Bool :=
  wfVecB tx.outer_code && wfTxTypeB tx.outer_data &&
  wfU64B tx.outer_timestamp && wfVecB tx.outer_extra && wfVecB tx.code &&
  (match tx.data with
   | none => true
   | some d => wfOptVecB d.data && wfOptVecB d.sig) &&
  wfU64B tx.timestamp && wfVecB tx.extra &&
  decide (tx.sections.length < 4294967296) &&
  tx.sections.all wfSectionB

/-- Every ciphertext section of the envelope is length-consistent. -/
def ctConsistentTxB (tx : Tx) : Bool := tx.sections.all ctConsistentB

/-- Whether a section is a `Ciphertext` section. -/
def isCiphertextB : Section → Bool
  | Section.ciphertext _ => true
  | _ => false

/-- Whether a section is encrypted under a key other than `privkey`
(non-ciphertext sections vacuously so): the wrong-key hypothesis of the
wrong-key-safety claim. -/
def wrongKeyB (privkey : Nat) : Section → Bool
  | Section.ciphertext ct => decide (ct.ciphertext.auth_tag ≠ [privkey])
  | _ => true

/-! ## Concrete sample values for witnesses and counterexamples -/

/-- An empty randomness environment. -/
def sampleEnv : Env := { rng := [] }

/-- A trivial wrapper header. -/
def sampleWrapper : WrapperTx :=
  { fee := { amount := 0, token := [] }, pk := [], epoch := 0,
    gas_limit := 0, code_hash := [], data_hash := [], pow_solution := none }

/-- A sample code section (8-byte salt). -/
def sampleCode : CodeSec := { salt := [0, 0, 0, 0, 0, 0, 0, 0], code := [1] }

/-- A second sample code section. -/
def sampleCode2 : CodeSec := { salt := [0, 0, 0, 0, 0, 0, 0, 1], code := [3] }

/-- A sample data section (8-byte salt). -/
def sampleData : DataSec := { salt := [0, 0, 0, 0, 0, 0, 0, 0], data := [2] }

/-- A second sample data section. -/
def sampleData2 : DataSec := { salt := [0, 0, 0, 0, 0, 0, 0, 1], data := [4] }

/-- A minimal raw-headed envelope. -/
def sampleTxRaw : Tx :=
  { outer_code := [], outer_data := TxType.raw { code_hash := [], data_hash := [] },
    outer_timestamp := 0, outer_extra := [], code := [], data := none,
    timestamp := 0, extra := [], sections := [] }

/-- A sample pending-decryption queue entry. -/
def sampleEntry : TxInQueue :=
  { tx := sampleWrapper, inner_tx := sampleTxRaw, has_valid_pow := false }

/-- A validator-mode shell state with one queued entry. -/
def sampleStateV : ShellState :=
  { mode := ShellMode.validator, tx_queue := [sampleEntry] }

/-- A ciphertext encrypted under key `1` (so key `0` does not match). -/
def sampleCtKey1 : Ciphertext :=
  { length := 5,
    ciphertext := { nonce := [], ciphertext := [9, 9, 9, 9], auth_tag := [1] } }

/-- An envelope holding one ciphertext section encrypted under key `1`. -/
def sampleTxCt : Tx :=
  { sampleTxRaw with sections := [Section.ciphertext sampleCtKey1] }

/-- A ciphertext whose stored `length` field (0) disagrees with its
serialized buffer total (1) — exactly the shape `Ciphertext::new`
produces, since it stores the plaintext length while serialization
records the buffer total. -/
def inconsistentCt : Ciphertext :=
  { length := 0, ciphertext := { nonce := [], ciphertext := [7], auth_tag := [] } }

/-- A complete, well-formed envelope containing the length-inconsistent
ciphertext: the header's code and data hashes resolve to the appended
`Code` and `Data` sections. -/
def badRoundTripTx : Tx :=
  (sampleTxRaw.setCode sampleCode |>.setData sampleData).addSection
    (Section.ciphertext inconsistentCt)

/-- The same envelope with the ciphertext's `length` field made
consistent. -/
def goodRoundTripTx : Tx :=
  (sampleTxRaw.setCode sampleCode |>.setData sampleData).addSection
    (Section.ciphertext { inconsistentCt with length := 1 })

/-- A kilobyte of zeros: a candidate byte string of length 1024. -/
def kib : Bytes := List.replicate 1024 0

/-! ## Helper lemmas -/

theorem takeWhileBudget_filter (budget : Nat) (l : List Bytes) :
    ∀ total, takeWhileBudget budget total (l.filter keepTx)
      = specGreedySelect budget total l := by
  induction l with
  | nil => intro total; rfl
  | cons b rest ih =>
      intro total
      by_cases hb : keepTx b
      · simp only [List.filter_cons, hb, if_pos, specGreedySelect,
          takeWhileBudget]
        by_cases hsz : budget < total + b.length
        · simp [hsz]
        · simp [hsz, ih]
      · simp only [List.filter_cons, hb, Bool.false_eq_true, if_neg,
          specGreedySelect, ih]
        simp [hb, ih]

/-! ## Claim C1 -/

/-- C1 (corrected claim, proved): the queue phase of `prepare_proposal`
reads the pending-decryption queue without removing anything — the call
leaves the whole shell state, queue included, unchanged (the receiver is
`&self`; the source iterates with `iter()`, not `drain()`). -/
theorem c1_queue_unchanged (env : Env) (st : ShellState) (reqTxs : List Bytes) :
    (prepareProposal env st reqTxs).snd = st := rfl

/-- C1 counterexample: a validator-mode state whose queue holds an entry
before the call still holds that entry after the call, refuting the claim
that every entry present at the start has been removed. -/
theorem c1_counterexample :
    sampleStateV.mode = ShellMode.validator ∧
    sampleEntry ∈ sampleStateV.tx_queue ∧
    sampleEntry ∈ (prepareProposal sampleEnv sampleStateV []).snd.tx_queue := by
  refine ⟨rfl, ?_, ?_⟩ <;> simp [sampleStateV, prepareProposal]

/-! ## Claim C9 -/

/-- C9 (confirmed): proposal construction is deterministic — the output
is a function of the shell state (mode, queue and the hardcoded key) and
the mempool snapshot alone; the ambient randomness available to the
process (which `Ciphertext::new` would draw from) is never consumed on
the proposal path. -/
theorem c9_deterministic (env1 env2 : Env) (st : ShellState)
    (reqTxs : List Bytes) :
    prepareProposal env1 st reqTxs = prepareProposal env2 st reqTxs := rfl

/-! ## Claim C4 -/

/-- C4 (confirmed): in validator mode the proposal is exactly the kept
mempool candidates, in arrival order, followed by one
resolved-or-unresolvable transaction per queue entry in enqueue order;
the queue phase is a plain `map` over the whole queue, so it has no size
budget and covers every entry. -/
theorem c4_proposal_ordering (env : Env) (st : ShellState)
    (reqTxs : List Bytes) (h : st.mode = ShellMode.validator) :
    (prepareProposal env st reqTxs).fst =
      mempoolPhase reqTxs ++
        st.tx_queue.map
          (fun e => (resolveQueueEntry primeSubgroupGenerator e).toBytes) ∧
    (st.tx_queue.map
        (fun e => (resolveQueueEntry primeSubgroupGenerator e).toBytes)).length
      = st.tx_queue.length := by
  obtain ⟨m, q⟩ := st
  cases h
  exact ⟨rfl, List.length_map _ _⟩

/-- Witness for C4 at a concrete validator state with one queued entry. -/
theorem c4_witness :
    (prepareProposal sampleEnv sampleStateV []).fst =
      mempoolPhase [] ++
        sampleStateV.tx_queue.map
          (fun e => (resolveQueueEntry primeSubgroupGenerator e).toBytes) ∧
    (sampleStateV.tx_queue.map
        (fun e => (resolveQueueEntry primeSubgroupGenerator e).toBytes)).length
      = sampleStateV.tx_queue.length :=
  c4_proposal_ordering sampleEnv sampleStateV [] rfl

/-! ## Claim C3 -/

/-- C3 (confirmed): the mempool filter phase equals the specification's
greedy-prefix scan — drop non-wrapper or undecodable candidates
silently, keep a running total of kept lengths, and stop the scan
entirely at the first kept candidate that would push the total past the
budget. In particular, three kept candidates of 1024 bytes against a
2048-byte budget yield exactly the first two. -/
theorem c3_mempool_greedy (reqTxs : List Bytes) (t1 t2 t3 : Bytes)
    (h1 : t1.length = 1024) (h2 : t2.length = 1024) (h3 : t3.length = 1024) :
    mempoolPhase reqTxs = specGreedySelect HALF_MAX_PROPOSAL_SIZE 0 reqTxs ∧
    takeWhileBudget 2048 0 [t1, t2, t3] = [t1, t2] := by
  constructor
  · exact takeWhileBudget_filter HALF_MAX_PROPOSAL_SIZE reqTxs 0
  · simp [takeWhileBudget, h1, h2, h3]

/-- Witness for C3: three concrete kilobyte candidates. -/
theorem c3_witness :
    mempoolPhase [] = specGreedySelect HALF_MAX_PROPOSAL_SIZE 0 [] ∧
    takeWhileBudget 2048 0 [kib, kib, kib] = [kib, kib] :=
  c3_mempool_greedy [] kib kib kib
    (by simp only [kib, List.length_replicate])
    (by simp only [kib, List.length_replicate])
    (by simp only [kib, List.length_replicate])

/-! ## Helper lemmas for header mutation and section lookup -/

theorem codeHash_setCodeHash (tx : Tx) (h : Hash) :
    (tx.setCodeHash h).codeHash = h := by
  cases htx : tx.outer_data with
  | raw r => simp [Tx.setCodeHash, Tx.codeHash, htx]
  | wrapper w => simp [Tx.setCodeHash, Tx.codeHash, htx]
  | decrypted dd => cases dd <;> simp [Tx.setCodeHash, Tx.codeHash, htx]
  | protocol p => simp [Tx.setCodeHash, Tx.codeHash, htx]

theorem dataHash_setCodeHash (tx : Tx) (h : Hash) :
    (tx.setCodeHash h).dataHash = tx.dataHash := by
  cases htx : tx.outer_data with
  | raw r => simp [Tx.setCodeHash, Tx.dataHash, htx]
  | wrapper w => simp [Tx.setCodeHash, Tx.dataHash, htx]
  | decrypted dd => cases dd <;> simp [Tx.setCodeHash, Tx.dataHash, htx]
  | protocol p => simp [Tx.setCodeHash, Tx.dataHash, htx]

theorem dataHash_setDataHash (tx : Tx) (h : Hash) :
    (tx.setDataHash h).dataHash = h := by
  cases htx : tx.outer_data with
  | raw r => simp [Tx.setDataHash, Tx.dataHash, htx]
  | wrapper w => simp [Tx.setDataHash, Tx.dataHash, htx]
  | decrypted dd => cases dd <;> simp [Tx.setDataHash, Tx.dataHash, htx]
  | protocol p => simp [Tx.setDataHash, Tx.dataHash, htx]

theorem codeHash_setDataHash (tx : Tx) (h : Hash) :
    (tx.setDataHash h).codeHash = tx.codeHash := by
  cases htx : tx.outer_data with
  | raw r => simp [Tx.setDataHash, Tx.codeHash, htx]
  | wrapper w => simp [Tx.setDataHash, Tx.codeHash, htx]
  | decrypted dd => cases dd <;> simp [Tx.setDataHash, Tx.codeHash, htx]
  | protocol p => simp [Tx.setDataHash, Tx.codeHash, htx]

theorem sectionStream_eq_code (s : Section) (c : CodeSec)
    (hs : wfSectionB s = true) (hc : c.salt.length = 8)
    (h : sectionStream s = sectionStream (Section.code c)) :
    s = Section.code c := by
  cases s with
  | code c' =>
      simp only [sectionStream, codeStream, List.cons.injEq, true_and] at h
      simp only [wfSectionB, wfVecB, Bool.and_eq_true, decide_eq_true_eq] at hs
      obtain ⟨h1, h2⟩ := List.append_inj h (by omega)
      cases c'; cases c
      simp only [Section.code.injEq, CodeSec.mk.injEq]
      exact ⟨h1, h2⟩
  | data d => simp [sectionStream] at h
  | extraData d => simp [sectionStream] at h
  | signature g => simp [sectionStream] at h
  | ciphertext ct => simp [sectionStream] at h

theorem sectionStream_eq_data (s : Section) (d : DataSec)
    (hs : wfSectionB s = true) (hd : d.salt.length = 8)
    (h : sectionStream s = sectionStream (Section.data d)) :
    s = Section.data d := by
  cases s with
  | data d' =>
      simp only [sectionStream, dataStream, List.cons.injEq, true_and] at h
      simp only [wfSectionB, wfVecB, Bool.and_eq_true, decide_eq_true_eq] at hs
      obtain ⟨h1, h2⟩ := List.append_inj h (by omega)
      cases d'; cases d
      simp only [Section.data.injEq, DataSec.mk.injEq]
      exact ⟨h1, h2⟩
  | code c => simp [sectionStream] at h
  | extraData d' => simp [sectionStream] at h
  | signature g => simp [sectionStream] at h
  | ciphertext ct => simp [sectionStream] at h

theorem findSection_insert (t : Section) (rest : List Section) :
    ∀ l : List Section,
      (∀ s ∈ l, sectionHash s = sectionHash t → s = t) →
      findSection (sectionHash t) (l ++ t :: rest) = some t := by
  intro l
  induction l with
  | nil => intro _; simp [findSection]
  | cons s l ih =>
      intro hl
      simp only [List.cons_append, findSection]
      by_cases hs : sectionHash s = sectionHash t
      · rw [if_pos hs, hl s (List.mem_cons_self s l) hs]
      · rw [if_neg hs]
        exact ih fun s' h' => hl s' (List.mem_cons_of_mem _ h')

/-! ## Claim C7 -/

/-- C7 (confirmed): a section's identity is the digest of the
domain-separation tag byte (Data=0, ExtraData=1, Code=2, Signature=3,
Ciphertext=4) followed by its fields in fixed order — salt then payload,
and for a signature salt, target, signature, public key. For a
ciphertext section exactly the serialized payload buffers are hashed
after the tag, with the outer `u32` length framing stripped. -/
theorem c7_section_identity (s : Section) :
    sectionHash s = idealDigest (sectionStream s) ∧
    sectionStream s = (match s with
      | Section.data d => 0 :: (d.salt ++ d.data)
      | Section.extraData d => 1 :: (d.salt ++ d.data)
      | Section.code c => 2 :: (c.salt ++ c.code)
      | Section.signature g =>
          3 :: (g.salt ++ encHash g.target ++ encVec g.signature ++
            encVec g.pub_key)
      | Section.ciphertext c =>
          4 :: (encVec c.ciphertext.nonce ++ encVec c.ciphertext.ciphertext ++
            encVec c.ciphertext.auth_tag)) := by
  refine ⟨rfl, ?_⟩
  cases s with
  | data d => rfl
  | extraData d => rfl
  | code c => rfl
  | signature g => rfl
  | ciphertext c =>
      simp [sectionStream, ciphertextStream, ciphertextSerial, encU32,
        List.append_assoc]

/-! ## Claim C8 -/

/-- C8 (confirmed): `set_code` (resp. `set_data`) appends the section,
writes its computed hash into the active header variant's code (resp.
data) hash field, and consequently `get_section` on that header field
resolves to the new section. -/
theorem c8_content_addressing (tx : Tx) (c : CodeSec) (d : DataSec)
    (hwf : ∀ s ∈ tx.sections, wfSectionB s = true)
    (hc : c.salt.length = 8) (hd : d.salt.length = 8) :
    ((tx.setCode c).sections = tx.sections ++ [Section.code c] ∧
     (tx.setCode c).codeHash = sectionHash (Section.code c) ∧
     (tx.setCode c).getSection ((tx.setCode c).codeHash)
       = some (Section.code c)) ∧
    ((tx.setData d).sections = tx.sections ++ [Section.data d] ∧
     (tx.setData d).dataHash = sectionHash (Section.data d) ∧
     (tx.setData d).getSection ((tx.setData d).dataHash)
       = some (Section.data d)) := by
  have hch : (tx.setCode c).codeHash = sectionHash (Section.code c) :=
    codeHash_setCodeHash tx _
  have hdh : (tx.setData d).dataHash = sectionHash (Section.data d) :=
    dataHash_setDataHash tx _
  refine ⟨⟨rfl, hch, ?_⟩, ⟨rfl, hdh, ?_⟩⟩
  · show findSection ((tx.setCode c).codeHash) ((tx.setCode c).sections)
      = some (Section.code c)
    rw [hch]
    exact findSection_insert _ [] tx.sections
      (fun s hs hh => sectionStream_eq_code s c (hwf s hs) hc hh)
  · show findSection ((tx.setData d).dataHash) ((tx.setData d).sections)
      = some (Section.data d)
    rw [hdh]
    exact findSection_insert _ [] tx.sections
      (fun s hs hh => sectionStream_eq_data s d (hwf s hs) hd hh)

/-- Witness for C8 at a concrete envelope with no prior sections. -/
theorem c8_witness :
    ((sampleTxRaw.setCode sampleCode).sections
        = sampleTxRaw.sections ++ [Section.code sampleCode] ∧
     (sampleTxRaw.setCode sampleCode).codeHash
        = sectionHash (Section.code sampleCode) ∧
     (sampleTxRaw.setCode sampleCode).getSection
        ((sampleTxRaw.setCode sampleCode).codeHash)
        = some (Section.code sampleCode)) ∧
    ((sampleTxRaw.setData sampleData).sections
        = sampleTxRaw.sections ++ [Section.data sampleData] ∧
     (sampleTxRaw.setData sampleData).dataHash
        = sectionHash (Section.data sampleData) ∧
     (sampleTxRaw.setData sampleData).getSection
        ((sampleTxRaw.setData sampleData).dataHash)
        = some (Section.data sampleData)) :=
  c8_content_addressing sampleTxRaw sampleCode sampleData
    (by intro s hs; simp [sampleTxRaw] at hs) (by decide) (by decide)

/-! ## Claim C10 -/

/-- C10 (confirmed): header mutation never removes sections — a second
`set_code` (resp. `set_data`) leaves the previously appended section in
place, both sections are then present, the old section's hash still
resolves via `get_section`, and only the header's code (resp. data) hash
field is redirected to the newest section while the other hash field is
untouched. -/
theorem c10_sections_never_removed (tx : Tx) (c1 c2 : CodeSec)
    (d1 d2 : DataSec) (hwf : ∀ s ∈ tx.sections, wfSectionB s = true)
    (hc1 : c1.salt.length = 8) (hd1 : d1.salt.length = 8) :
    (((tx.setCode c1).setCode c2).sections
        = tx.sections ++ [Section.code c1, Section.code c2] ∧
     ((tx.setCode c1).setCode c2).getSection (sectionHash (Section.code c1))
        = some (Section.code c1) ∧
     ((tx.setCode c1).setCode c2).codeHash
        = sectionHash (Section.code c2) ∧
     ((tx.setCode c1).setCode c2).dataHash = tx.dataHash) ∧
    (((tx.setData d1).setData d2).sections
        = tx.sections ++ [Section.data d1, Section.data d2] ∧
     ((tx.setData d1).setData d2).getSection (sectionHash (Section.data d1))
        = some (Section.data d1) ∧
     ((tx.setData d1).setData d2).dataHash
        = sectionHash (Section.data d2) ∧
     ((tx.setData d1).setData d2).codeHash = tx.codeHash) := by
  have hsc : ((tx.setCode c1).setCode c2).sections
      = tx.sections ++ [Section.code c1, Section.code c2] := by
    show (tx.sections ++ [Section.code c1]) ++ [Section.code c2]
      = tx.sections ++ [Section.code c1, Section.code c2]
    simp
  have hsd : ((tx.setData d1).setData d2).sections
      = tx.sections ++ [Section.data d1, Section.data d2] := by
    show (tx.sections ++ [Section.data d1]) ++ [Section.data d2]
      = tx.sections ++ [Section.data d1, Section.data d2]
    simp
  refine ⟨⟨hsc, ?_, ?_, ?_⟩, ⟨hsd, ?_, ?_, ?_⟩⟩
  · show findSection (sectionHash (Section.code c1))
      (((tx.setCode c1).setCode c2).sections) = some (Section.code c1)
    rw [hsc]
    exact findSection_insert _ [Section.code c2] tx.sections
      (fun s hs hh => sectionStream_eq_code s c1 (hwf s hs) hc1 hh)
  · exact codeHash_setCodeHash _ _
  · show ((tx.setCode c1).setCodeHash (sectionHash (Section.code c2))).dataHash
      = tx.dataHash
    rw [dataHash_setCodeHash]
    exact dataHash_setCodeHash tx _
  · show findSection (sectionHash (Section.data d1))
      (((tx.setData d1).setData d2).sections) = some (Section.data d1)
    rw [hsd]
    exact findSection_insert _ [Section.data d2] tx.sections
      (fun s hs hh => sectionStream_eq_data s d1 (hwf s hs) hd1 hh)
  · exact dataHash_setDataHash _ _
  · show ((tx.setData d1).setDataHash (sectionHash (Section.data d2))).codeHash
      = tx.codeHash
    rw [codeHash_setDataHash]
    exact codeHash_setDataHash tx _

/-- Witness for C10 at a concrete envelope. -/
theorem c10_witness :
    (((sampleTxRaw.setCode sampleCode).setCode sampleCode2).sections
        = sampleTxRaw.sections ++
            [Section.code sampleCode, Section.code sampleCode2] ∧
     ((sampleTxRaw.setCode sampleCode).setCode sampleCode2).getSection
        (sectionHash (Section.code sampleCode)) = some (Section.code sampleCode) ∧
     ((sampleTxRaw.setCode sampleCode).setCode sampleCode2).codeHash
        = sectionHash (Section.code sampleCode2) ∧
     ((sampleTxRaw.setCode sampleCode).setCode sampleCode2).dataHash
        = sampleTxRaw.dataHash) ∧
    (((sampleTxRaw.setData sampleData).setData sampleData2).sections
        = sampleTxRaw.sections ++
            [Section.data sampleData, Section.data sampleData2] ∧
     ((sampleTxRaw.setData sampleData).setData sampleData2).getSection
        (sectionHash (Section.data sampleData)) = some (Section.data sampleData) ∧
     ((sampleTxRaw.setData sampleData).setData sampleData2).dataHash
        = sectionHash (Section.data sampleData2) ∧
     ((sampleTxRaw.setData sampleData).setData sampleData2).codeHash
        = sampleTxRaw.codeHash) :=
  c10_sections_never_removed sampleTxRaw sampleCode sampleCode2 sampleData
    sampleData2 (by intro s hs; simp [sampleTxRaw] at hs) (by decide)
    (by decide)

/-! ## Helper lemmas for decryption -/

theorem ciphertextDecrypt_wrong_key (ct : Ciphertext) (privkey : Nat)
    (h : ct.ciphertext.auth_tag ≠ [privkey]) :
    Ciphertext.decrypt ct privkey = none := by
  simp [Ciphertext.decrypt, tpkeDecrypt, h, sectionFromSlice, pSection, pByte]

theorem decryptSections_wrong_key (privkey : Nat) (l : List Section)
    (hk : l.all (wrongKeyB privkey) = true) :
    decryptSections privkey l =
      ((if l.any isCiphertextB then some WrapperTxErr.invalidTx else none),
        l) := by
  induction l with
  | nil => simp [decryptSections]
  | cons s rest ih =>
      simp only [List.all_cons, Bool.and_eq_true] at hk
      cases s with
      | ciphertext ct =>
          have hne : ct.ciphertext.auth_tag ≠ [privkey] := by
            have := hk.1
            simpa [wrongKeyB] using this
          simp [decryptSections, ciphertextDecrypt_wrong_key ct privkey hne,
            List.any_cons, isCiphertextB]
      | data d => simp [decryptSections, List.any_cons, isCiphertextB, ih hk.2]
      | extraData d =>
          simp [decryptSections, List.any_cons, isCiphertextB, ih hk.2]
      | code c => simp [decryptSections, List.any_cons, isCiphertextB, ih hk.2]
      | signature g =>
          simp [decryptSections, List.any_cons, isCiphertextB, ih hk.2]

theorem decryptSections_fst_none_iff (privkey : Nat) (l : List Section) :
    (decryptSections privkey l).fst = none ↔
      l.all (sectionDecOk privkey) = true := by
  induction l with
  | nil => simp [decryptSections]
  | cons s rest ih =>
      cases s with
      | ciphertext ct =>
          cases hdec : Ciphertext.decrypt ct privkey with
          | none => simp [decryptSections, hdec, List.all_cons, sectionDecOk]
          | some s2 =>
              simp [decryptSections, hdec, List.all_cons, sectionDecOk, ih]
      | data d => simp [decryptSections, List.all_cons, sectionDecOk, ih]
      | extraData d => simp [decryptSections, List.all_cons, sectionDecOk, ih]
      | code c => simp [decryptSections, List.all_cons, sectionDecOk, ih]
      | signature g => simp [decryptSections, List.all_cons, sectionDecOk, ih]

theorem decryptSections_snd_of_ok (privkey : Nat) (l : List Section)
    (h : l.all (sectionDecOk privkey) = true) :
    (decryptSections privkey l).snd = decryptedSections privkey l := by
  induction l with
  | nil => simp [decryptSections, decryptedSections]
  | cons s rest ih =>
      simp only [List.all_cons, Bool.and_eq_true] at h
      cases s with
      | ciphertext ct =>
          cases hdec : Ciphertext.decrypt ct privkey with
          | none => simp [sectionDecOk, hdec] at h
          | some s2 =>
              simp [decryptSections, hdec, decryptedSections, ih h.2]
      | data d => simp [decryptSections, decryptedSections, ih h.2]
      | extraData d => simp [decryptSections, decryptedSections, ih h.2]
      | code c => simp [decryptSections, decryptedSections, ih h.2]
      | signature g => simp [decryptSections, decryptedSections, ih h.2]

/-! ## Claim C2 -/

/-- C2 (confirmed): decrypting an envelope that holds at least one
ciphertext section with a key matching none of the encryption keys
returns the `InvalidTx` outcome (a total function — no panic), leaves
the section list untouched, and causes the queue-phase closure to render
the entry with an `Undecryptable` header over the unchanged sections. -/
theorem c2_wrong_key_safety (tx : Tx) (privkey : Nat)
    (hct : tx.sections.any isCiphertextB = true)
    (hk : tx.sections.all (wrongKeyB privkey) = true) :
    (tx.decrypt privkey).fst = some WrapperTxErr.invalidTx ∧
    (tx.decrypt privkey).snd = tx ∧
    ∀ (w : WrapperTx) (pow : Bool),
      (resolveQueueEntry privkey
        { tx := w, inner_tx := tx, has_valid_pow := pow }).outer_data
        = TxType.decrypted (DecryptedTx.undecryptable w) ∧
      (resolveQueueEntry privkey
        { tx := w, inner_tx := tx, has_valid_pow := pow }).sections
        = tx.sections := by
  have hds := decryptSections_wrong_key privkey tx.sections hk
  rw [hct] at hds
  simp only [if_pos] at hds
  have hd : tx.decrypt privkey = (some WrapperTxErr.invalidTx, tx) := by
    simp [Tx.decrypt, hds]
  refine ⟨by rw [hd], by rw [hd], ?_⟩
  intro w pow
  constructor <;> simp [resolveQueueEntry, hd]

/-- Witness for C2: a concrete envelope holding one ciphertext encrypted
under key 1, decrypted with key 0. -/
theorem c2_witness :
    (sampleTxCt.decrypt 0).fst = some WrapperTxErr.invalidTx ∧
    (sampleTxCt.decrypt 0).snd = sampleTxCt ∧
    (resolveQueueEntry 0
      { tx := sampleWrapper, inner_tx := sampleTxCt,
        has_valid_pow := false }).outer_data
      = TxType.decrypted (DecryptedTx.undecryptable sampleWrapper) ∧
    (resolveQueueEntry 0
      { tx := sampleWrapper, inner_tx := sampleTxCt,
        has_valid_pow := false }).sections
      = sampleTxCt.sections := by
  have h := c2_wrong_key_safety sampleTxCt 0 (by decide) (by decide)
  exact ⟨h.1, h.2.1, (h.2.2 sampleWrapper false).1,
    (h.2.2 sampleWrapper false).2⟩

/-! ## Claim C5 -/

/-- C5 (confirmed): `Tx::decrypt` succeeds exactly when every ciphertext
section authenticates, decrypts and deserializes back into a section,
and, after those in-place replacements, the header's data hash and code
hash resolve via `get_section` to a `Data` and a `Code` section
respectively; a failure of the post-decryption resolution check counts
as decryption failure even when every ciphertext decrypted cleanly. -/
theorem c5_decrypt_success_iff (tx : Tx) (privkey : Nat) :
    (tx.decrypt privkey).fst = none ↔
      (tx.sections.all (sectionDecOk privkey) = true ∧
       (Tx.dataBytes
         { tx with sections := decryptedSections privkey tx.sections }).isSome
         = true ∧
       (Tx.codeBytes
         { tx with sections := decryptedSections privkey tx.sections }).isSome
         = true) := by
  cases hr : (decryptSections privkey tx.sections).fst with
  | some e =>
      have hall : ¬ tx.sections.all (sectionDecOk privkey) = true := by
        rw [← decryptSections_fst_none_iff privkey tx.sections, hr]
        simp
      simp only [Tx.decrypt, hr]
      simp [hall]
  | none =>
      have hall : tx.sections.all (sectionDecOk privkey) = true :=
        (decryptSections_fst_none_iff privkey tx.sections).mp hr
      have hsnd := decryptSections_snd_of_ok privkey tx.sections hall
      simp only [Tx.decrypt, hr, hsnd]
      cases hdB : Tx.dataBytes
          { tx with sections := decryptedSections privkey tx.sections } with
      | none => simp [hdB, hall]
      | some v =>
          cases hcB : Tx.codeBytes
              { tx with sections := decryptedSections privkey tx.sections } with
          | none => simp [hdB, hcB, hall]
          | some w => simp [hdB, hcB, hall]

/-! ## Round-trip lemmas for the primitive codecs -/

theorem pU32_enc (n : Nat) (h : n < 4294967296) (r : Bytes) :
    pU32 (encU32 n ++ r) = some (n, r) := by
  simp only [encU32, List.cons_append, List.nil_append, pU32,
    Option.some.injEq, Prod.mk.injEq]
  exact ⟨by omega, trivial⟩

theorem pTake_enc (v : Bytes) (r : Bytes) :
    pTake v.length (v ++ r) = some (v, r) := by
  induction v with
  | nil => rfl
  | cons b v ih => simp [pTake, ih]

theorem pU64_enc (n : Nat) (h : n < 18446744073709551616) (r : Bytes) :
    pU64 (encU64 n ++ r) = some (n, r) := by
  have h1 : n % 4294967296 < 4294967296 := Nat.mod_lt _ (by norm_num)
  have h2 : n / 4294967296 < 4294967296 := by omega
  simp only [encU64, List.append_assoc, pU64, pU32_enc _ h1, pU32_enc _ h2,
    Option.some_bind, Option.some.injEq, Prod.mk.injEq]
  exact ⟨by omega, trivial⟩

theorem pVec_enc (v : Bytes) (h : v.length < 4294967296) (r : Bytes) :
    pVec (encVec v ++ r) = some (v, r) := by
  simp only [encVec, List.append_assoc, pVec, pU32_enc _ h, Option.some_bind]
  exact pTake_enc v r

theorem pHash_enc (v : Hash) (h : v.length < 4294967296) (r : Bytes) :
    pHash (encHash v ++ r) = some (v, r) := pVec_enc v h r

theorem pBool_enc (b : Bool) (r : Bytes) :
    pBool (encBool b ++ r) = some (b, r) := by
  cases b <;> rfl

theorem pOpt_enc {α : Type} (p : Bytes → Option (α × Bytes)) (f : α → Bytes)
    (o : Option α) (hp : ∀ a, o = some a → ∀ r, p (f a ++ r) = some (a, r))
    (r : Bytes) : pOpt p (encOpt f o ++ r) = some (o, r) := by
  cases o with
  | none => rfl
  | some a =>
      simp [encOpt, pOpt, pByte, hp a rfl r]

theorem pListN_enc {α : Type} (p : Bytes → Option (α × Bytes)) (f : α → Bytes) :
    ∀ l : List α, (∀ a ∈ l, ∀ r, p (f a ++ r) = some (a, r)) →
      ∀ r, pListN p l.length ((l.map f).flatten ++ r) = some (l, r) := by
  intro l
  induction l with
  | nil => intro _ r; rfl
  | cons a l ih =>
      intro hp r
      simp only [List.map_cons, List.flatten_cons, List.length_cons, pListN,
        List.append_assoc, hp a (List.mem_cons_self a l),
        Option.some_bind, ih (fun x hx => hp x (List.mem_cons_of_mem _ hx)) r]

theorem pVarint_aux_enc :
    ∀ fuel n, n ≤ fuel → ∀ r, pVarint (varintEncAux fuel n ++ r) = some (n, r) := by
  intro fuel
  induction fuel with
  | zero =>
      intro n hn r
      have hz : n = 0 := by omega
      subst hz
      rfl
  | succ fuel ih =>
      intro n hn r
      by_cases h : n < 128
      · simp [varintEncAux, h, pVarint]
      · have hd : n / 128 ≤ fuel := by
          have := Nat.div_lt_self (show 0 < n by omega) (show 1 < 128 by omega)
          omega
        simp only [varintEncAux, h, if_false, List.cons_append, pVarint]
        rw [if_neg (by omega)]
        rw [ih (n / 128) hd r]
        simp only [Option.some_bind, Option.some.injEq, Prod.mk.injEq]
        exact ⟨by omega, trivial⟩

theorem pVarint_enc (n : Nat) : ∀ r, pVarint (varintEnc n ++ r) = some (n, r) :=
  fun r => pVarint_aux_enc n n (Nat.le_refl n) r

/-! ## Round-trip lemmas for the structure codecs -/

theorem pOptVec_enc (o : Option Bytes) (h : wfOptVecB o = true) (r : Bytes) :
    pOpt pVec (encOpt encVec o ++ r) = some (o, r) := by
  refine pOpt_enc pVec encVec o ?_ r
  intro a ha r'
  subst ha
  simp only [wfOptVecB, wfVecB, decide_eq_true_eq] at h
  exact pVec_enc a h r'

theorem pOptU64_enc (o : Option Nat)
    (h : (match o with | none => true | some n => wfU64B n) = true)
    (r : Bytes) : pOpt pU64 (encOpt encU64 o ++ r) = some (o, r) := by
  refine pOpt_enc pU64 encU64 o ?_ r
  intro a ha r'
  subst ha
  simp only [wfU64B, decide_eq_true_eq] at h
  exact pU64_enc a h r'

theorem pSignedTxData_enc (d : SignedTxData)
    (h1 : wfOptVecB d.data = true) (h2 : wfOptVecB d.sig = true) (r : Bytes) :
    pSignedTxData (encSignedTxData d ++ r) = some (d, r) := by
  obtain ⟨dd, ds⟩ := d
  simp only [encSignedTxData, List.append_assoc, pSignedTxData,
    pOptVec_enc dd h1, Option.some_bind, pOptVec_enc ds h2]

theorem pOptSigned_enc (o : Option SignedTxData)
    (h : (match o with
          | none => true
          | some d => wfOptVecB d.data && wfOptVecB d.sig) = true)
    (r : Bytes) :
    pOpt pSignedTxData (encOpt encSignedTxData o ++ r) = some (o, r) := by
  refine pOpt_enc pSignedTxData encSignedTxData o ?_ r
  intro a ha r'
  subst ha
  simp only [Bool.and_eq_true] at h
  exact pSignedTxData_enc a h.1 h.2 r'

theorem pFee_enc (f : Fee) (h1 : f.amount < 18446744073709551616)
    (h2 : f.token.length < 4294967296) (r : Bytes) :
    pFee (encFee f ++ r) = some (f, r) := by
  obtain ⟨a, t⟩ := f
  simp only [encFee, List.append_assoc, pFee, pU64_enc _ h1, Option.some_bind,
    pVec_enc _ h2]

theorem pWrapperTx_enc (w : WrapperTx) (h : wfWrapperB w = true) (r : Bytes) :
    pWrapperTx (encWrapperTx w ++ r) = some (w, r) := by
  obtain ⟨⟨a, t⟩, pk, ep, gl, ch, dh, pw⟩ := w
  simp only [wfWrapperB, wfU64B, wfVecB, Bool.and_eq_true,
    decide_eq_true_eq] at h
  obtain ⟨⟨⟨⟨⟨⟨⟨h1, h2⟩, h3⟩, h4⟩, h5⟩, h6⟩, h7⟩, h8⟩ := h
  simp only [encWrapperTx, encHash, List.append_assoc, pWrapperTx,
    pFee_enc { amount := a, token := t } h1 h2, Option.some_bind,
    pVec_enc _ h3, pU64_enc _ h4, pU64_enc _ h5, pHash, pVec_enc _ h6,
    pVec_enc _ h7, pOptU64_enc pw h8]

theorem pTxType_enc (t : TxType) (h : wfTxTypeB t = true) (r : Bytes) :
    pTxType (encTxType t ++ r) = some (t, r) := by
  cases t with
  | raw rr =>
      obtain ⟨ch, dh⟩ := rr
      simp only [wfTxTypeB, wfVecB, Bool.and_eq_true, decide_eq_true_eq] at h
      simp [encTxType, encHash, List.append_assoc, pTxType, pByte, pHash,
        pVec_enc _ h.1, pVec_enc _ h.2]
  | wrapper w =>
      simp only [wfTxTypeB] at h
      simp [encTxType, List.append_assoc, pTxType, pByte, pWrapperTx_enc w h]
  | decrypted dd =>
      cases dd with
      | decrypted hh ch dh pow =>
          simp only [wfTxTypeB, wfVecB, Bool.and_eq_true,
            decide_eq_true_eq] at h
          simp [encTxType, encHash, List.append_assoc, pTxType, pByte, pHash,
            pVec_enc _ h.1.1, pVec_enc _ h.1.2, pVec_enc _ h.2, pBool_enc]
      | undecryptable w =>
          simp only [wfTxTypeB] at h
          simp [encTxType, List.append_assoc, pTxType, pByte,
            pWrapperTx_enc w h]
  | protocol p =>
      obtain ⟨ch, dh⟩ := p
      simp only [wfTxTypeB, wfVecB, Bool.and_eq_true, decide_eq_true_eq] at h
      simp [encTxType, encHash, List.append_assoc, pTxType, pByte, pHash,
        pVec_enc _ h.1, pVec_enc _ h.2]

theorem pCiphertext_enc (c : Ciphertext)
    (hwf : wfSectionB (Section.ciphertext c) = true)
    (hcons : ctConsistentB (Section.ciphertext c) = true) (r : Bytes) :
    pCiphertext (ciphertextSerial c ++ r) = some (c, r) := by
  obtain ⟨len, nn, ct, tg⟩ := c
  simp only [wfSectionB, wfVecB, Bool.and_eq_true, decide_eq_true_eq] at hwf
  obtain ⟨⟨⟨w1, w2⟩, w3⟩, w4⟩ := hwf
  simp only [ctConsistentB, decide_eq_true_eq] at hcons
  subst hcons
  simp only [ciphertextSerial, List.append_assoc, pCiphertext,
    pU32_enc _ w4, Option.some_bind, pVec_enc _ w1, pVec_enc _ w2,
    pVec_enc _ w3]

theorem pSection_enc (s : Section) (hwf : wfSectionB s = true)
    (hcons : ctConsistentB s = true) (r : Bytes) :
    pSection (encSection s ++ r) = some (s, r) := by
  cases s with
  | data d =>
      obtain ⟨sa, dd⟩ := d
      simp only [wfSectionB, wfVecB, Bool.and_eq_true, decide_eq_true_eq] at hwf
      have ht := pTake_enc sa (encVec dd ++ r)
      rw [hwf.1] at ht
      simp [encSection, List.append_assoc, pSection, pByte, ht,
        pVec_enc _ hwf.2]
  | extraData d =>
      obtain ⟨sa, dd⟩ := d
      simp only [wfSectionB, wfVecB, Bool.and_eq_true, decide_eq_true_eq] at hwf
      have ht := pTake_enc sa (encVec dd ++ r)
      rw [hwf.1] at ht
      simp [encSection, List.append_assoc, pSection, pByte, ht,
        pVec_enc _ hwf.2]
  | code c =>
      obtain ⟨sa, cc⟩ := c
      simp only [wfSectionB, wfVecB, Bool.and_eq_true, decide_eq_true_eq] at hwf
      have ht := pTake_enc sa (encVec cc ++ r)
      rw [hwf.1] at ht
      simp [encSection, List.append_assoc, pSection, pByte, ht,
        pVec_enc _ hwf.2]
  | signature g =>
      obtain ⟨sa, tg, sg, pk⟩ := g
      simp only [wfSectionB, wfVecB, Bool.and_eq_true, decide_eq_true_eq] at hwf
      obtain ⟨⟨⟨w1, w2⟩, w3⟩, w4⟩ := hwf
      have ht := pTake_enc sa (encVec tg ++ (encVec sg ++ (encVec pk ++ r)))
      rw [w1] at ht
      simp [encSection, encHash, List.append_assoc, pSection, pByte, ht,
        pHash, pVec_enc _ w2, pVec_enc _ w3, pVec_enc _ w4]
  | ciphertext c =>
      simp [encSection, List.append_assoc, pSection, pByte,
        pCiphertext_enc c hwf hcons]

theorem pTx_enc (tx : Tx) (h1 : wfTxB tx = true)
    (h2 : ctConsistentTxB tx = true) (r : Bytes) :
    pTx (borshTx tx ++ r) = some (tx, r) := by
  obtain ⟨oc, od, ots, oe, cd, dt, ts, ex, secs⟩ := tx
  simp only [wfTxB, Bool.and_eq_true, wfVecB, wfU64B, decide_eq_true_eq,
    List.all_eq_true] at h1
  obtain ⟨⟨⟨⟨⟨⟨⟨⟨⟨hoc, hod⟩, hots⟩, hoe⟩, hcd⟩, hdt⟩, hts⟩, hex⟩, hn⟩,
    hsecs⟩ := h1
  simp only [ctConsistentTxB, List.all_eq_true] at h2
  have hlist := pListN_enc pSection encSection secs
    (fun s hs r' => pSection_enc s (hsecs s hs) (h2 s hs) r') r
  simp only [borshTx, encSections, List.append_assoc, pTx,
    pVec_enc _ hoc, Option.some_bind, pTxType_enc od hod, pU64_enc _ hots,
    pVec_enc _ hoe, pVec_enc _ hcd, pOptSigned_enc dt hdt, pU64_enc _ hts,
    pVec_enc _ hex, pU32_enc _ hn, hlist]

/-! ## Claim C6 -/

/-- C6 (amended claim, proved): decoding the bytes produced by encoding a
well-formed envelope whose `Ciphertext` sections carry length fields
consistent with their serialized buffers yields the envelope back
unchanged. -/
theorem c6_round_trip (tx : Tx) (h1 : wfTxB tx = true)
    (h2 : ctConsistentTxB tx = true) :
    Tx.tryFrom (Tx.toBytes tx) = some tx := by
  have hptx : pTx (borshTx tx) = some (tx, []) := by
    have h := pTx_enc tx h1 h2 []
    rwa [List.append_nil] at h
  have hbne : (borshTx tx).isEmpty = false := by
    cases hbb : borshTx tx with
    | nil =>
        exfalso
        simp [borshTx, encVec, encU32, List.cons_append,
          List.append_assoc] at hbb
    | cons a r2 => rfl
  simp only [Tx.toBytes, prostWrap, hbne, Bool.false_eq_true, if_false,
    Tx.tryFrom, prostUnwrap, pVarint_enc, Option.some_bind, if_pos rfl,
    if_true, hptx]

/-- C6 counterexample: a complete, well-formed envelope (its header's
code and data hashes resolve to appended sections) whose ciphertext
section stores the plaintext length, as `Ciphertext::new` does; the
serializer recomputes the length while the deserializer keeps the wire
value, so the decoded envelope differs from the original. -/
theorem c6_counterexample :
    wfTxB badRoundTripTx = true ∧
    (badRoundTripTx.codeBytes).isSome = true ∧
    (badRoundTripTx.dataBytes).isSome = true ∧
    Tx.tryFrom (Tx.toBytes badRoundTripTx) ≠ some badRoundTripTx := by
  refine ⟨by decide, by decide, by decide, by decide⟩

/-- Witness for C6 at a concrete envelope with code, data and a
length-consistent ciphertext section. -/
theorem c6_witness :
    Tx.tryFrom (Tx.toBytes goodRoundTripTx) = some goodRoundTripTx :=
  c6_round_trip goodRoundTripTx (by decide) (by decide)

end Namada
